import Mathlib

/-!
Verification of `electrum/blockchain.py` (Snowgem/electrum-snowgem).

Shallow embedding conventions:
* Python arbitrary-precision integers are `ℕ`/`ℤ`; Python `//` on
  non-negative integers is `Nat.div`, on possibly negative integers it is
  floor division; Python `int(x / y)` (true division followed by `int`)
  truncates toward zero and is modelled by `Int.tdiv` (truncating
  division), exact whenever `|x| < 2^53` so that the intermediate
  IEEE double is exact — which is the case for all u32 timestamp
  arithmetic in Digishield.
* Python `raise` is `Except.error`; functions that can raise return
  `Except String α`.
* `sha256d` and the hex codec are external primitives (spec §1, out of
  scope): hashes are abstracted as values or uninterpreted functions.
* The header store behind `self.read_header` is abstracted as a function
  `ℕ → Option RHeader` when embedding `get_target`/`get_median_time`,
  which are parametric in it.
-/

deriving instance DecidableEq for Except

namespace Snowgem

/-! ## Constants (from `blockchain.py`) -/

def CHUNK_LEN : ℕ := 200

def MAX_TARGET : ℕ := 0x0007FFFFFFFFFFFFFFFFFFFFFFFFFFFFFFFFFFFFFFFFFFFFFFFFFFFFFFFFFFFF

def MIN_TARGET : ℕ := 0x0007ffff00000000000000000000000000000000000000000000000000000000

def POW_AVERAGING_WINDOW : ℕ := 17

def POW_MEDIAN_BLOCK_SPAN : ℕ := 11

def POW_MAX_ADJUST_DOWN : ℕ := 32

def POW_MAX_ADJUST_UP : ℕ := 16

def POW_DAMPING_FACTOR : ℕ := 4

def POW_TARGET_SPACING : ℕ := 60

def EH_EPOCH_1_END : ℕ := 266000

def LWMA_FORK_BLOCK : ℕ := 765000

def ZAWY_LWMA3_AVERAGING_WINDOW : ℕ := 60

def AVERAGING_WINDOW_TIMESPAN : ℕ := POW_AVERAGING_WINDOW * POW_TARGET_SPACING

def MIN_ACTUAL_TIMESPAN : ℕ := AVERAGING_WINDOW_TIMESPAN * (100 - POW_MAX_ADJUST_UP) / 100

def MAX_ACTUAL_TIMESPAN : ℕ := AVERAGING_WINDOW_TIMESPAN * (100 + POW_MAX_ADJUST_DOWN) / 100

/-! ## Target math (`Blockchain.bits_to_target`, `Blockchain.target_to_bits`) -/

/-- `Blockchain.bits_to_target`.  `(bits >> 24) & 0xff` is
`bits / 2^24 % 256` and `bits & 0xffffff` is `bits % 2^24`;
`bitsBase << (8*(bitsN-3))` is `bitsBase * 2^(8*(bitsN-3))`
(the range check guarantees `3 ≤ bitsN`). -/
def bits_to_target (bits : ℕ) : Except String ℕ :=
  let bitsN := bits / 2 ^ 24 % 256
  if ¬(3 ≤ bitsN ∧ bitsN ≤ 31) then
    .error "First part of bits should be in [0x03, 0x1f]"
  else
    let bitsBase := bits % 2 ^ 24
    if ¬(0x8000 ≤ bitsBase ∧ bitsBase ≤ 0x7fffff) then
      .error "Second part of bits should be in [0x8000, 0x7fffff]"
    else
      .ok (bitsBase * 2 ^ (8 * (bitsN - 3)))

/-- The `while c[:2] == '00' and len(c) > 6: c = c[2:]` loop of
`target_to_bits`, tracking the byte length `L` of the string `c` (the
leading byte of a `L`-byte big-endian rendering of `c` is `00` iff
`c < 256^(L-1)`).  The loop runs at most 28 times (from 31 bytes down to
the minimum of 3), which bounds the fuel. -/
def stripGo (c : ℕ) : ℕ → ℕ → ℕ
  | 0, L => L
  | fuel + 1, L => if 3 < L ∧ c < 256 ^ (L - 1) then stripGo c fuel (L - 1) else L

/-- Byte length of the string `c` after the stripping loop: start from the
62-hex-digit (31-byte) rendering. -/
def stripLen (c : ℕ) : ℕ := stripGo c 28 31

/-- `Blockchain.target_to_bits`.  `("%064x" % target)[2:]` renders the low
62 hex digits of the 64-digit zero-padded rendering, i.e. the value
`target % 2^248` (for `target < 2^256` the rendering is exactly 64 digits);
the stripping loop leaves `L = stripLen c` bytes;
`int.from_bytes(bfh(c[:6]), 'big')` is the value of the top 3 remaining
bytes, i.e. `c / 256^(L-3)`; `bitsN << 24 | bitsBase` is
`bitsN * 2^24 + bitsBase` since `bitsBase < 2^24`. -/
def target_to_bits (target : ℕ) : ℕ :=
  let c := target % 2 ^ 248
  let L := stripLen c
  let bitsBase := c / 256 ^ (L - 3)
  if 0x800000 ≤ bitsBase then (L + 1) * 2 ^ 24 + bitsBase / 256
  else L * 2 ^ 24 + bitsBase

example : target_to_bits 0x8000 = 0x03008000 := by decide
example : bits_to_target 0x03008000 = .ok 0x8000 := by decide
example : target_to_bits (0x7fffff * 2 ^ 224) = 0x1f7fffff := by decide
example : target_to_bits (0x9000 * 2 ^ 224) = 0x1f009000 := by decide

/-- The stripping loop stops exactly at the byte length `K` of `c`
(clamped below at 3): if `c < 256^K`, the leading byte is nonzero at
length `K` (or `K` is already the minimum 3), and the fuel suffices,
the loop returns `K`. -/
theorem stripGo_eq (c : ℕ) :
    ∀ fuel L K : ℕ, 3 ≤ K → K ≤ L → L ≤ K + fuel → c < 256 ^ K →
      (K = 3 ∨ 256 ^ (K - 1) ≤ c) → stripGo c fuel L = K := by
  intro fuel
  induction fuel with
  | zero =>
    intro L K _ h1 h2 _ _
    have : L = K := le_antisymm (by omega) h1
    simp [stripGo, this]
  | succ n ih =>
    intro L K h3 h1 h2 hc hlead
    rw [stripGo]
    by_cases hLK : L = K
    · subst hLK
      have hcond : ¬(3 < L ∧ c < 256 ^ (L - 1)) := by
        rcases hlead with hK3 | hge
        · omega
        · intro hand; omega
      simp [hcond]
    · have hKL : K < L := lt_of_le_of_ne h1 (Ne.symm hLK)
      have hcond : 3 < L ∧ c < 256 ^ (L - 1) :=
        ⟨by omega, lt_of_lt_of_le hc (Nat.pow_le_pow_right (by norm_num) (by omega))⟩
      rw [if_pos hcond]
      exact ih (L - 1) K h3 (by omega) (by omega) hc hlead

/-- `stripLen` on a value of known byte range. -/
theorem stripLen_eq (c K : ℕ) (h3 : 3 ≤ K) (h31 : K ≤ 31)
    (hc : c < 256 ^ K) (hlead : K = 3 ∨ 256 ^ (K - 1) ≤ c) :
    stripLen c = K :=
  stripGo_eq c 28 31 K h3 h31 (by omega) hc hlead

theorem pow256_eq (k : ℕ) : (256 : ℕ) ^ k = 2 ^ (8 * k) := by
  rw [show (256 : ℕ) = 2 ^ 8 by norm_num, ← pow_mul]

theorem bits_to_target_canonical (e m : ℕ) (he3 : 3 ≤ e) (he : e ≤ 31)
    (hm1 : 0x8000 ≤ m) (hm2 : m ≤ 0x7fffff) :
    bits_to_target (e * 2 ^ 24 + m) = .ok (m * 2 ^ (8 * (e - 3))) := by
  have hmlt : m < 2 ^ 24 := by omega
  have hdiv : (e * 2 ^ 24 + m) / 2 ^ 24 % 256 = e := by
    rw [Nat.add_comm, Nat.add_mul_div_right _ _ (by norm_num : (0:ℕ) < 2 ^ 24),
      Nat.div_eq_of_lt hmlt, Nat.zero_add, Nat.mod_eq_of_lt (by omega)]
  have hmod : (e * 2 ^ 24 + m) % 2 ^ 24 = m := by
    rw [Nat.add_comm, Nat.add_mul_mod_self_right, Nat.mod_eq_of_lt hmlt]
  simp only [bits_to_target, hdiv, hmod]
  rw [if_neg (by omega), if_neg (by omega)]

theorem target_to_bits_canonical (e m : ℕ) (he3 : 3 ≤ e) (he : e ≤ 31)
    (hm1 : 0x8000 ≤ m) (hm2 : m ≤ 0x7fffff) :
    target_to_bits (m * 2 ^ (8 * (e - 3))) = e * 2 ^ 24 + m := by
  obtain ⟨s, rfl⟩ : ∃ s, e = s + 3 := ⟨e - 3, by omega⟩
  have hs28 : s ≤ 28 := by omega
  rw [show s + 3 - 3 = s by omega]
  have hpos : (0 : ℕ) < 2 ^ (8 * s) := Nat.pos_pow_of_pos _ (by norm_num)
  have ht248 : m * 2 ^ (8 * s) % 2 ^ 248 = m * 2 ^ (8 * s) := by
    apply Nat.mod_eq_of_lt
    calc m * 2 ^ (8 * s) < 2 ^ 24 * 2 ^ (8 * s) :=
          (Nat.mul_lt_mul_right hpos).mpr (by omega)
      _ ≤ 2 ^ 24 * 2 ^ 224 :=
          Nat.mul_le_mul_left _ (Nat.pow_le_pow_right (by norm_num) (by omega))
      _ = 2 ^ 248 := by rw [← pow_add]
  simp only [target_to_bits, ht248]
  rcases Nat.lt_or_ge m (2 ^ 16) with hm16 | hm16
  · rcases Nat.eq_zero_or_pos s with hs0 | hs1
    · subst hs0
      simp only [Nat.mul_zero, pow_zero, Nat.mul_one]
      have hL : stripLen m = 3 :=
        stripLen_eq m 3 le_rfl (by norm_num) (lt_of_le_of_lt hm2 (by norm_num))
          (Or.inl rfl)
      rw [hL]
      simp only [Nat.sub_self, pow_zero, Nat.div_one]
      rw [if_neg (by omega)]
    · have hL : stripLen (m * 2 ^ (8 * s)) = s + 2 := by
        apply stripLen_eq _ (s + 2) (by omega) (by omega)
        · rw [pow256_eq]
          calc m * 2 ^ (8 * s) < 2 ^ 16 * 2 ^ (8 * s) :=
                (Nat.mul_lt_mul_right hpos).mpr hm16
            _ = 2 ^ (8 * (s + 2)) := by rw [← pow_add]; ring_nf
        · right
          rw [show s + 2 - 1 = s + 1 by omega, pow256_eq]
          calc 2 ^ (8 * (s + 1)) ≤ 2 ^ 15 * 2 ^ (8 * s) := by
                rw [← pow_add]; exact Nat.pow_le_pow_right (by norm_num) (by omega)
            _ ≤ m * 2 ^ (8 * s) := Nat.mul_le_mul_right _ (by omega)
      rw [hL, show s + 2 - 3 = s - 1 by omega]
      have hsplit : 8 * s = 8 + 8 * (s - 1) := by omega
      have hbase : m * 2 ^ (8 * s) / 256 ^ (s - 1) = m * 256 := by
        rw [pow256_eq, hsplit, pow_add, ← Nat.mul_assoc]
        rw [Nat.mul_div_cancel _ (Nat.pos_pow_of_pos _ (by norm_num))]
        norm_num [Nat.mul_comm]
      rw [hbase, if_pos (by omega)]
      rw [Nat.mul_div_cancel _ (by norm_num : (0:ℕ) < 256)]
  · have hL : stripLen (m * 2 ^ (8 * s)) = s + 3 := by
      apply stripLen_eq _ (s + 3) (by omega) (by omega)
      · rw [pow256_eq]
        calc m * 2 ^ (8 * s) < 2 ^ 24 * 2 ^ (8 * s) :=
              (Nat.mul_lt_mul_right hpos).mpr (by omega)
          _ = 2 ^ (8 * (s + 3)) := by rw [← pow_add]; ring_nf
      · right
        rw [show s + 3 - 1 = s + 2 by omega, pow256_eq]
        calc 2 ^ (8 * (s + 2)) = 2 ^ 16 * 2 ^ (8 * s) := by rw [← pow_add]; ring_nf
          _ ≤ m * 2 ^ (8 * s) := Nat.mul_le_mul_right _ hm16
    rw [hL, show s + 3 - 3 = s by omega]
    have hbase : m * 2 ^ (8 * s) / 256 ^ s = m := by
      rw [pow256_eq, Nat.mul_div_cancel _ hpos]
    rw [hbase, if_neg (by omega)]

/-- C1: for every canonical compact value `b = e·2^24 + m` with exponent
byte `e ∈ [0x03, 0x1f]` and mantissa `m ∈ [0x8000, 0x7fffff]`,
`bits_to_target b` succeeds and `target_to_bits (bits_to_target b) = b`. -/
theorem C1_bits_roundtrip (e m : ℕ) (he3 : 3 ≤ e) (he : e ≤ 0x1f)
    (hm1 : 0x8000 ≤ m) (hm2 : m ≤ 0x7fffff) :
    bits_to_target (e * 2 ^ 24 + m) = .ok (m * 2 ^ (8 * (e - 3))) ∧
      target_to_bits (m * 2 ^ (8 * (e - 3))) = e * 2 ^ 24 + m :=
  ⟨bits_to_target_canonical e m he3 he hm1 hm2,
   target_to_bits_canonical e m he3 he hm1 hm2⟩

/-- Witness for C1 at the canonical bits `0x1c7fffff` (e = 0x1c, m = 0x7fffff). -/
theorem C1_bits_roundtrip_witness :
    bits_to_target (0x1c * 2 ^ 24 + 0x7fffff) = .ok (0x7fffff * 2 ^ (8 * (0x1c - 3))) ∧
      target_to_bits (0x7fffff * 2 ^ (8 * (0x1c - 3))) = 0x1c * 2 ^ 24 + 0x7fffff :=
  C1_bits_roundtrip 0x1c 0x7fffff (by norm_num) (by norm_num) (by norm_num) (by norm_num)

/-- C9: `target_to_bits` depends only on `target % 2^248` — the most
significant byte of the 64-hex-digit rendering of a value below `2^256`
is discarded before compaction. -/
theorem C9_target_to_bits_mod (t : ℕ) (ht : t < 2 ^ 256) :
    target_to_bits t = target_to_bits (t % 2 ^ 248) := by
  simp only [target_to_bits, Nat.mod_mod_of_dvd _ dvd_rfl]

/-- Witness for C9 at `t = 2^255`. -/
theorem C9_target_to_bits_mod_witness :
    2 ^ 255 < 2 ^ 256 ∧ target_to_bits (2 ^ 255) = target_to_bits (2 ^ 255 % 2 ^ 248) :=
  ⟨by norm_num, C9_target_to_bits_mod (2 ^ 255) (by norm_num)⟩

/-! ## Verifier (`Blockchain.verify_header`) -/

/-- The fields of a header record inspected by `verify_header`.  Hashes
are represented by their integer values (hex strings are in bijection
with them). -/
structure VHeader where
  prev_block_hash : ℕ
  bits : ℕ
deriving DecidableEq

/-- `Blockchain.verify_header` on mainnet.  `_hash = hash_header(header)`
is the double-SHA256 of the serialized header, an external primitive
(spec §1): it is abstracted as the argument `hash_int`, the integer value
`int('0x' + _hash, 16)`.  The `constants.net.TESTNET` early return is
omitted: per spec §1 only the mainnet pathway is normative
(`TESTNET = false`). -/
def verify_header (hash_int : ℕ) (header : VHeader) (prev_hash : ℕ)
    (target : ℕ) : Except String Unit :=
  if prev_hash ≠ header.prev_block_hash then .error "prev hash mismatch"
  else if target_to_bits target ≠ header.bits then .error "bits mismatch"
  else if hash_int > target then .error "insufficient proof of work"
  else .ok ()

/-- C6: on mainnet `verify_header` raises iff the previous-hash check,
the bits check, or the proof-of-work check fails; when all three pass it
returns normally with no effect. -/
theorem C6_verify_header_iff (hash_int : ℕ) (h : VHeader) (prev_hash target : ℕ) :
    ((∃ e, verify_header hash_int h prev_hash target = .error e) ↔
      (h.prev_block_hash ≠ prev_hash ∨ target_to_bits target ≠ h.bits ∨
        target < hash_int)) ∧
    (verify_header hash_int h prev_hash target = .ok () ↔
      (h.prev_block_hash = prev_hash ∧ target_to_bits target = h.bits ∧
        hash_int ≤ target)) := by
  simp only [verify_header]
  split_ifs with h1 h2 h3 <;>
    simp_all <;> omega

/-! ## On-disk layout (`Blockchain.get_offset`) -/

/-- Modelled from the spec: `EQUIHASH_FORK_HEIGHT` lives in
`electrum/constants.py`, which is not among the sources.  The spec
identifies the Equihash epoch transition with `EH_EPOCH_1_END = 266000`
(spec §2 component C, §4.C rule 2, glossary "Equihash fork"). -/
def EQUIHASH_FORK_HEIGHT : ℤ := 266000

/-- Modelled from the spec: `HDR_LEN` (pre-fork header size) lives in
`electrum/bitcoin.py`, not among the sources.  Per spec §6 the pre-fork
record has no solution ("no solution / short sol_size"): 140 bytes of
fixed fields plus the 3-byte `sol_size` tag, i.e. 143 bytes. -/
def HDR_LEN : ℕ := 143

/-- Modelled from the spec: `HDR_LEN_FORK = 1487` bytes post-fork
(spec §6; `HEADER_SIZE = 1487` in `blockchain.py` agrees). -/
def HDR_LEN_FORK : ℕ := 1487

/-- Modelled from the spec: `is_post_equihash_fork` lives in
`electrum/bitcoin.py`; per spec §6 "the switch is driven solely by
`height ≥ EQUIHASH_FORK_HEIGHT`". -/
def is_post_equihash_fork (height : ℤ) : Bool :=
  decide (EQUIHASH_FORK_HEIGHT ≤ height)

/-- Modelled from the spec: `get_header_size` lives in
`electrum/bitcoin.py`; the on-disk size is `HDR_LEN` pre-fork and
`HDR_LEN_FORK` post-fork (spec §3, §6). -/
def get_header_size (height : ℤ) : ℕ :=
  if is_post_equihash_fork height then HDR_LEN_FORK else HDR_LEN

/-- `Blockchain.get_offset`.  Note `get_header_size
constants.net.EQUIHASH_FORK_HEIGHT = HDR_LEN_FORK`. -/
def get_offset (checkpoint height : ℤ) : ℤ :=
  let prb : ℤ :=
    if is_post_equihash_fork height then EQUIHASH_FORK_HEIGHT
    else height - checkpoint
  let peb : ℤ :=
    if is_post_equihash_fork height then height - max checkpoint EQUIHASH_FORK_HEIGHT
    else 0
  prb * HDR_LEN + peb * HDR_LEN_FORK

/-- The offset formula stated by the spec (§4.D):
`pre = max(0, min(height, EQUIHASH_FORK_HEIGHT) − checkpoint)`,
`post = max(0, height − max(checkpoint, EQUIHASH_FORK_HEIGHT))`,
`offset = pre·HDR_LEN + post·HDR_LEN_FORK`. -/
def offset_spec (checkpoint height : ℤ) : ℤ :=
  max 0 (min height EQUIHASH_FORK_HEIGHT - checkpoint) * HDR_LEN +
    max 0 (height - max checkpoint EQUIHASH_FORK_HEIGHT) * HDR_LEN_FORK

/-- Sum of on-disk header sizes over heights `[h1, h1 + n)`. -/
def header_span_sum (h1 n : ℕ) : ℤ :=
  ((List.range' h1 n).map fun k : ℕ => (get_header_size (k : ℤ) : ℤ)).sum

/-- C2 counterexample: for checkpoint 1 ≤ 265999 ≤ 266001 the offset
difference is not the sum of the header sizes at heights 265999 and
266000, and at checkpoint 266001 the closed form of the spec disagrees
with `get_offset` at height 266002: once the height passes the fork the
code charges the full pre-fork span `EQUIHASH_FORK_HEIGHT · HDR_LEN`
regardless of the checkpoint. -/
theorem C2_get_offset_counterexample :
    (get_offset 1 266001 - get_offset 1 265999 ≠
      get_header_size 265999 + get_header_size 266000) ∧
    get_offset 266001 266002 ≠ offset_spec 266001 266002 := by
  constructor <;> decide

/-- C2, amended: for the trunk layout (`checkpoint = 0`) the offset map
inverts header sizes: the difference over `[h1, h2)` is the sum of the
header sizes, and the closed form of the spec holds. -/
theorem C2_get_offset_trunk (h1 h2 : ℕ) (hle : h1 ≤ h2) :
    (get_offset 0 h2 - get_offset 0 h1 = header_span_sum h1 (h2 - h1)) ∧
    ∀ h : ℕ, get_offset 0 h = offset_spec 0 h := by
  constructor
  · obtain ⟨n, rfl⟩ : ∃ n, h2 = h1 + n := ⟨h2 - h1, by omega⟩
    rw [show h1 + n - h1 = n by omega]
    induction n with
    | zero => simp [header_span_sum]
    | succ k ih =>
      rw [header_span_sum, List.range'_concat, List.map_append, List.sum_append]
      rw [header_span_sum] at ih
      simp only [Nat.one_mul, List.map_cons, List.map_nil, List.sum_cons,
        List.sum_nil, add_zero]
      have hstep : get_offset 0 ((h1 + (k + 1) : ℕ) : ℤ) -
          get_offset 0 ((h1 + k : ℕ) : ℤ) =
          ((get_header_size ((h1 + k : ℕ) : ℤ) : ℕ) : ℤ) := by
        simp only [get_offset, get_header_size, is_post_equihash_fork,
          EQUIHASH_FORK_HEIGHT, HDR_LEN, HDR_LEN_FORK]
        by_cases hA : (266000 : ℤ) ≤ ((h1 + k : ℕ) : ℤ) <;>
          by_cases hB : (266000 : ℤ) ≤ ((h1 + (k + 1) : ℕ) : ℤ) <;>
            simp [hA, hB] <;> push_cast at hA hB ⊢ <;> omega
      have hih := ih (by omega)
      omega
  · intro h
    simp only [get_offset, offset_spec, get_header_size, is_post_equihash_fork,
      EQUIHASH_FORK_HEIGHT, HDR_LEN, HDR_LEN_FORK]
    by_cases hA : (266000 : ℤ) ≤ (h : ℤ) <;> simp [hA] <;> omega

/-- Witness for C2 (amended) at `h1 = 265999`, `h2 = 266001`. -/
theorem C2_get_offset_trunk_witness :
    (get_offset 0 266001 - get_offset 0 265999 =
      header_span_sum 265999 (266001 - 265999)) ∧
    ∀ h : ℕ, get_offset 0 h = offset_spec 0 h :=
  C2_get_offset_trunk 265999 266001 (by norm_num)

/-! ## Retarget engine (`Blockchain.get_target`, `Blockchain.get_median_time`)

`get_target` reads headers through `self.read_header`; the per-chain
store is abstracted as a function `store : ℕ → Option RHeader` (all
heights passed to it inside `get_target` are natural).  The LWMA clamp
step divides with Python float (true) division `/`; the result of that
IEEE-double operation is abstracted as a parameter
`fdiv : ℤ → ℤ → ℚ` (every finite double is a rational, and Python
compares ints with floats exactly), so `get_target` computes in `ℚ`. -/

/-- The header fields inspected by the retarget engine. -/
structure RHeader where
  timestamp : ℕ
  bits : ℕ
deriving DecidableEq

/-- The in-flight `chunk_headers` dict of `verify_chunk`: the `empty`
flag, the `min_height`/`max_height` bounds and the height-keyed entries. -/
structure ChunkCtx where
  empty : Bool
  min_height : ℕ
  max_height : ℕ
  headers : ℕ → Option RHeader

/-- `chunk_empty = chunk_headers is None or chunk_headers['empty']`. -/
def chunk_is_empty : Option ChunkCtx → Bool
  | none => true
  | some c => c.empty

/-- Python `range(a, b)` for `0 ≤ a`. -/
def pyRange (a b : ℕ) : List ℕ := List.range' a (b - a)

/-- The header lookup inside the window loops of `get_target` and
`get_median_time`: `header = self.read_header(h)` (the backing store
first), then `if not header and not chunk_empty and
min_height <= h <= max_height: header = chunk_headers[h]` (the in-flight
context only as fallback; a missing key raises `KeyError`), then
`if not header: raise Exception("Can not read header at height %s")`. -/
def loopHeader (store : ℕ → Option RHeader) (chunk : Option ChunkCtx)
    (h : ℕ) : Except String RHeader :=
  match store h with
  | some hd => .ok hd
  | none =>
    match chunk with
    | some c =>
      if c.empty = false ∧ c.min_height ≤ h ∧ h ≤ c.max_height then
        match c.headers h with
        | some hd => .ok hd
        | none => .error "KeyError"
      else .error "Can not read header"
    | none => .error "Can not read header"

/-- `median.sort(); median[len(median) // 2]`.  Python's sort is
ascending; on a totally ordered type every sorting algorithm produces
the same list, so insertion sort is used (it evaluates by kernel
reduction).  The index access is total here because every call site
passes a nonempty list. -/
def median_index (median : List ℕ) : ℕ :=
  let sorted := median.insertionSort (· ≤ ·)
  sorted.getD (sorted.length / 2) 0

/-- One iteration of the `get_median_time` collection loop
(`median.append(header.get('timestamp'))`). -/
def median_step (store : ℕ → Option RHeader) (chunk : Option ChunkCtx)
    (acc : List ℕ) (h : ℕ) : Except String (List ℕ) := do
  let header ← loopHeader store chunk h
  pure (acc ++ [header.timestamp])

/-- `Blockchain.get_median_time`: collect the window timestamps
(`median.append(...)` in a loop) and take the middle of the sorted list. -/
def get_median_time (store : ℕ → Option RHeader) (chunk : Option ChunkCtx)
    (height : ℕ) : Except String ℕ := do
  let height_range := pyRange (height - POW_MEDIAN_BLOCK_SPAN) (max 1 height)
  let median ← height_range.foldlM (median_step store chunk) []
  pure (median_index median)

/-- One iteration of the Digishield mean-target loop
(`mean_target += self.bits_to_target(header.get('bits'))`). -/
def mean_step (store : ℕ → Option RHeader) (chunk : Option ChunkCtx)
    (acc : ℕ) (h : ℕ) : Except String ℕ := do
  let header ← loopHeader store chunk h
  let t ← bits_to_target header.bits
  pure (acc + t)

/-- The Digishield branch of `Blockchain.get_target` (the `else` block):
mean of the window targets, damped and clamped median-time delta, final
cap at `MAX_TARGET`.  `int((actual_timespan - AVERAGING_WINDOW_TIMESPAN)
/ POW_DAMPING_FACTOR)` truncates toward zero and is `Int.tdiv` (exact for
u32 timestamps, whose differences stay far below `2^53`). -/
def digishield_target (store : ℕ → Option RHeader) (chunk : Option ChunkCtx)
    (height : ℕ) : Except String ℤ := do
  let height_range := pyRange (height - POW_AVERAGING_WINDOW) (max 1 height)
  let mean_sum ← height_range.foldlM (mean_step store chunk) 0
  let mean_target := mean_sum / POW_AVERAGING_WINDOW
  let mt1 ← get_median_time store chunk height
  let mt0 ← get_median_time store chunk (height - POW_AVERAGING_WINDOW)
  let actual_timespan : ℤ := (mt1 : ℤ) - (mt0 : ℤ)
  let actual_timespan : ℤ := (AVERAGING_WINDOW_TIMESPAN : ℤ) +
    Int.tdiv (actual_timespan - (AVERAGING_WINDOW_TIMESPAN : ℤ)) (POW_DAMPING_FACTOR : ℤ)
  let actual_timespan : ℤ :=
    if actual_timespan < (MIN_ACTUAL_TIMESPAN : ℤ) then (MIN_ACTUAL_TIMESPAN : ℤ)
    else if actual_timespan > (MAX_ACTUAL_TIMESPAN : ℤ) then (MAX_ACTUAL_TIMESPAN : ℤ)
    else actual_timespan
  let next_target : ℤ :=
    ((mean_target / AVERAGING_WINDOW_TIMESPAN : ℕ) : ℤ) * actual_timespan
  let next_target : ℤ :=
    if next_target > (MAX_TARGET : ℤ) then (MAX_TARGET : ℤ) else next_target
  pure next_target

/-- `k = int(N * (N + 1) * T / 2)`: the float division of the exact
integer `60·61·60` by 2 is exact (small operands), so `k = 109800`. -/
def lwma_k : ℕ :=
  ZAWY_LWMA3_AVERAGING_WINDOW * (ZAWY_LWMA3_AVERAGING_WINDOW + 1) *
    POW_TARGET_SPACING / 2

/-- The mutable loop state of the LWMA-3 branch. -/
structure LwmaState where
  previousTimestamp : ℕ
  t : ℕ
  j : ℕ
  sumTarget : ℕ
  previousDiff : Option ℕ
deriving DecidableEq

/-- The `previousTimestamp` initialisation of the LWMA-3 branch: this
lookup (unlike the window loops) consults the in-flight context first
and falls back to `self.read_header(height - N - 1).get('timestamp')`,
which raises `AttributeError` when `read_header` returns `None`. -/
def lwma_prev_ts (store : ℕ → Option RHeader) (chunk : Option ChunkCtx)
    (height : ℕ) : Except String ℕ :=
  let idx := height - ZAWY_LWMA3_AVERAGING_WINDOW - 1
  let fromStore : Except String ℕ :=
    match store idx with
    | some hd => .ok hd.timestamp
    | none => .error "AttributeError"
  match chunk with
  | some c =>
    if c.empty = false ∧ c.min_height ≤ idx ∧ idx ≤ c.max_height then
      match c.headers idx with
      | some hd => .ok hd.timestamp
      | none => .error "KeyError"
    else fromStore
  | none => fromStore

/-- One iteration of the LWMA-3 window loop (`for h in
range(height - N, height)`). -/
def lwma_step (store : ℕ → Option RHeader) (chunk : Option ChunkCtx)
    (height : ℕ) (st : LwmaState) (h : ℕ) : Except String LwmaState := do
  let header ← loopHeader store chunk h
  let thisTimestamp :=
    if header.timestamp > st.previousTimestamp then header.timestamp
    else st.previousTimestamp + 1
  let solvetime :=
    min (6 * POW_TARGET_SPACING) (thisTimestamp - st.previousTimestamp)
  let j := st.j + 1
  let tgt ← bits_to_target header.bits
  pure ⟨thisTimestamp, st.t + solvetime * j, j,
    st.sumTarget + tgt / (lwma_k * ZAWY_LWMA3_AVERAGING_WINDOW),
    if h = height - 1 then some tgt else st.previousDiff⟩

/-- The clamp tail of the LWMA-3 branch.  `(previousDiff * 150) / 100`
and `(previousDiff * 67) / 100` are Python float divisions of exact
integers: whatever IEEE double they produce is the rational
`fdiv (previousDiff * 150) 100` (resp. `67`); comparisons between the
integer `nextTarget` and these floats are exact in Python. -/
def lwma_clamp (fdiv : ℤ → ℤ → ℚ) (nextTarget0 : ℕ) (previousDiff : ℕ) : ℚ :=
  let nt : ℚ := (nextTarget0 : ℚ)
  let hi := fdiv ((previousDiff : ℤ) * 150) 100
  let nt := if nt > hi then hi else nt
  let lo := fdiv ((previousDiff : ℤ) * 67) 100
  let nt := if lo > nt then lo else nt
  if nt > (MAX_TARGET : ℚ) then (MAX_TARGET : ℚ) else nt

/-- The LWMA-3 branch of `Blockchain.get_target` (taken when
`height >= LWMA_FORK_BLOCK`). -/
def lwma_target (fdiv : ℤ → ℤ → ℚ) (store : ℕ → Option RHeader)
    (chunk : Option ChunkCtx) (height : ℕ) : Except String ℚ :=
  if height < ZAWY_LWMA3_AVERAGING_WINDOW then .ok ((MAX_TARGET : ℕ) : ℚ)
  else do
    let previousTimestamp ← lwma_prev_ts store chunk height
    let st ← (pyRange (height - ZAWY_LWMA3_AVERAGING_WINDOW) height).foldlM
      (lwma_step store chunk height) ⟨previousTimestamp, 0, 0, 0, none⟩
    match st.previousDiff with
    | some previousDiff => .ok (lwma_clamp fdiv (st.t * st.sumTarget) previousDiff)
    | none => .error "NameError"

/-- `Blockchain.get_target`: the height-based rule dispatch of the
source, delegating to the embedded LWMA-3 and Digishield branches. -/
def get_target (fdiv : ℤ → ℤ → ℚ) (store : ℕ → Option RHeader)
    (chunk : Option ChunkCtx) (height : ℕ) : Except String ℚ :=
  if height ≤ POW_AVERAGING_WINDOW then .ok ((MAX_TARGET : ℕ) : ℚ)
  else if EH_EPOCH_1_END - POW_AVERAGING_WINDOW < height ∧ height ≤ EH_EPOCH_1_END then
    .ok ((MIN_TARGET : ℕ) : ℚ)
  else if LWMA_FORK_BLOCK ≤ height then lwma_target fdiv store chunk height
  else (digishield_target store chunk height).map fun z : ℤ => (z : ℚ)

/-- A float-division stub used only to instantiate witnesses: constantly 0
(`0` is a representable double, so it satisfies the double-valuedness
hypotheses). -/
def fdiv0 : ℤ → ℤ → ℚ := fun _ _ => 0

/-- The empty backing store. -/
def store_empty : ℕ → Option RHeader := fun _ => none

/-! ## Generic lemmas about the `Except`-valued window loops -/

theorem except_bind_ok {ε α β : Type} (a : α) (f : α → Except ε β) :
    (Except.ok a >>= f : Except ε β) = f a := rfl

theorem except_pure_eq {ε α : Type} (a : α) : (pure a : Except ε α) = .ok a := rfl

theorem except_map_ok {ε α β : Type} (f : α → β) (a : α) :
    Except.map f (Except.ok a : Except ε α) = .ok (f a) := rfl

theorem foldlM_except_congr {α β ε : Type} (f g : β → α → Except ε β) :
    ∀ (l : List α), (∀ st a, a ∈ l → f st a = g st a) →
      ∀ b, l.foldlM f b = l.foldlM g b := by
  intro l
  induction l with
  | nil => intro _ b; rfl
  | cons a l ih =>
    intro h b
    simp only [List.foldlM_cons]
    rw [h b a (List.mem_cons_self a l)]
    cases hg : g b a with
    | ok b' =>
      simp only [except_bind_ok]
      exact ih (fun st x hx => h st x (List.mem_cons_of_mem _ hx)) b'
    | error e => rfl

theorem mem_pyRange {k a b : ℕ} : k ∈ pyRange a b ↔ a ≤ k ∧ k < a + (b - a) := by
  rw [pyRange, List.mem_range'_1]

/-- Evaluating the Digishield mean-target loop when every lookup and
every `bits_to_target` succeeds. -/
theorem mean_fold_ok (store : ℕ → Option RHeader) (chunk : Option ChunkCtx)
    (hd : ℕ → RHeader) (tg : ℕ → ℕ) :
    ∀ l : List ℕ, (∀ k ∈ l, loopHeader store chunk k = .ok (hd k)) →
      (∀ k ∈ l, bits_to_target (hd k).bits = .ok (tg k)) →
      ∀ acc : ℕ,
        l.foldlM (mean_step store chunk) acc = .ok (acc + (l.map tg).sum) := by
  intro l
  induction l with
  | nil => intro _ _ acc; simp [List.foldlM, except_pure_eq]
  | cons a l ih =>
    intro h1 h2 acc
    simp only [List.foldlM_cons, mean_step]
    rw [h1 a (List.mem_cons_self a l)]
    simp only [except_bind_ok]
    rw [h2 a (List.mem_cons_self a l)]
    simp only [except_bind_ok, pure_bind]
    rw [ih (fun k hk => h1 k (List.mem_cons_of_mem _ hk))
      (fun k hk => h2 k (List.mem_cons_of_mem _ hk)) (acc + tg a)]
    simp [Nat.add_assoc]

/-- Evaluating the median-time collection loop when every lookup succeeds. -/
theorem median_fold_ok (store : ℕ → Option RHeader) (chunk : Option ChunkCtx)
    (hd : ℕ → RHeader) :
    ∀ l : List ℕ, (∀ k ∈ l, loopHeader store chunk k = .ok (hd k)) →
      ∀ acc : List ℕ,
        l.foldlM (median_step store chunk) acc =
          .ok (acc ++ l.map fun k => (hd k).timestamp) := by
  intro l
  induction l with
  | nil => intro _ acc; simp [List.foldlM, except_pure_eq]
  | cons a l ih =>
    intro h1 acc
    simp only [List.foldlM_cons, median_step]
    rw [h1 a (List.mem_cons_self a l)]
    simp only [except_bind_ok, pure_bind]
    rw [ih (fun k hk => h1 k (List.mem_cons_of_mem _ hk)) (acc ++ [(hd a).timestamp])]
    simp

theorem get_median_time_ok (store : ℕ → Option RHeader) (chunk : Option ChunkCtx)
    (hd : ℕ → RHeader) (x : ℕ)
    (h : ∀ k ∈ pyRange (x - POW_MEDIAN_BLOCK_SPAN) (max 1 x),
      loopHeader store chunk k = .ok (hd k)) :
    get_median_time store chunk x =
      .ok (median_index ((pyRange (x - POW_MEDIAN_BLOCK_SPAN) (max 1 x)).map
        fun k => (hd k).timestamp)) := by
  simp only [get_median_time]
  rw [median_fold_ok store chunk hd _ h []]
  simp [except_bind_ok, except_pure_eq]

/-! ## C3: rule selection of `get_target` -/

/-- C3: `get_target` selects its rule solely by height: `MAX_TARGET` for
`height ≤ 17`, `MIN_TARGET` on `(265983, 266000]`, the LWMA-3 rule from
765000 on, and the Digishield rule otherwise (in particular again at
height 266001). -/
theorem C3_get_target_rules (fdiv : ℤ → ℤ → ℚ) (store : ℕ → Option RHeader)
    (chunk : Option ChunkCtx) (height : ℕ) :
    (height ≤ 17 → get_target fdiv store chunk height = .ok ((MAX_TARGET : ℕ) : ℚ)) ∧
    (265983 < height → height ≤ 266000 →
      get_target fdiv store chunk height = .ok ((MIN_TARGET : ℕ) : ℚ)) ∧
    (765000 ≤ height →
      get_target fdiv store chunk height = lwma_target fdiv store chunk height) ∧
    (17 < height → ¬(265983 < height ∧ height ≤ 266000) → height < 765000 →
      get_target fdiv store chunk height =
        (digishield_target store chunk height).map fun z : ℤ => (z : ℚ)) := by
  refine ⟨fun h => ?_, fun h1 h2 => ?_, fun h => ?_, fun h1 h2 h3 => ?_⟩ <;>
    simp only [get_target, POW_AVERAGING_WINDOW, EH_EPOCH_1_END, LWMA_FORK_BLOCK]
  · rw [if_pos (by omega)]
  · rw [if_neg (by omega), if_pos (by omega)]
  · rw [if_neg (by omega), if_neg (by omega), if_pos (by omega)]
  · rw [if_neg (by omega), if_neg (by omega), if_neg (by omega)]

/-- Witness for C3 at heights 10, 265990, 765123 and 266001. -/
theorem C3_get_target_rules_witness :
    get_target fdiv0 store_empty none 10 = .ok ((MAX_TARGET : ℕ) : ℚ) ∧
    get_target fdiv0 store_empty none 265990 = .ok ((MIN_TARGET : ℕ) : ℚ) ∧
    get_target fdiv0 store_empty none 765123 = lwma_target fdiv0 store_empty none 765123 ∧
    get_target fdiv0 store_empty none 266001 =
      (digishield_target store_empty none 266001).map fun z : ℤ => (z : ℚ) :=
  ⟨(C3_get_target_rules fdiv0 store_empty none 10).1 (by omega),
   (C3_get_target_rules fdiv0 store_empty none 265990).2.1 (by omega) (by omega),
   (C3_get_target_rules fdiv0 store_empty none 765123).2.2.1 (by omega),
   (C3_get_target_rules fdiv0 store_empty none 266001).2.2.2 (by omega)
     (by omega) (by omega)⟩

/-! ## C4: the Digishield rule -/

theorem loopHeader_store (store : ℕ → Option RHeader) (chunk : Option ChunkCtx)
    (k : ℕ) (hd : RHeader) (h : store k = some hd) :
    loopHeader store chunk k = .ok hd := by
  simp [loopHeader, h]

theorem clamp_eq_max_min (a lo hi : ℤ) (h : lo ≤ hi) :
    (if a < lo then lo else if a > hi then hi else a) = max lo (min hi a) := by
  split_ifs <;> omega

theorem if_gt_eq_min (a M : ℤ) : (if a > M then M else a) = min M a := by
  split_ifs <;> omega

/-- The spec's `median_time(x)`: the median of the timestamps at heights
`[x−11, x−1]`. -/
def median_time_spec (hd : ℕ → RHeader) (x : ℕ) : ℕ :=
  median_index ((List.range' (x - 11) 11).map fun k => (hd k).timestamp)

/-- The Digishield value as the spec states it (§4.C): mean of the
window targets over `[height−17, height−1]` divided by 17, timespan
`median_time(height) − median_time(height−17)` damped by
`1020 + trunc((actual − 1020)/4)` and clamped to
`[1020·84//100, 1020·132//100]`, then
`min(MAX_TARGET, (mean_target // 1020) · actual)`. -/
def digishield_spec (hd : ℕ → RHeader) (tg : ℕ → ℕ) (height : ℕ) : ℤ :=
  let mean_target := ((List.range' (height - 17) 17).map tg).sum / 17
  let actual0 : ℤ :=
    (median_time_spec hd height : ℤ) - (median_time_spec hd (height - 17) : ℤ)
  let actual1 : ℤ := 1020 + Int.tdiv (actual0 - 1020) 4
  let actual2 : ℤ := max (1020 * 84 / 100) (min (1020 * 132 / 100) actual1)
  min (MAX_TARGET : ℤ) (((mean_target / 1020 : ℕ) : ℤ) * actual2)

/-- C4: in the Digishield regime (`28 ≤ height < 765000`, outside the
epoch-transition window) with all of `[height−28, height−1]` served by
the store (canonical bits, u32 timestamps), `get_target` returns exactly
the Digishield formula of the spec. -/
theorem C4_digishield_correct (fdiv : ℤ → ℤ → ℚ) (store : ℕ → Option RHeader)
    (chunk : Option ChunkCtx) (hd : ℕ → RHeader) (tg : ℕ → ℕ) (height : ℕ)
    (h28 : 28 ≤ height)
    (hepoch : ¬(265983 < height ∧ height ≤ 266000))
    (hfork : height < 765000)
    (hav : ∀ k < height, height - 28 ≤ k → store k = some (hd k))
    (htg : ∀ k < height, height - 28 ≤ k → bits_to_target (hd k).bits = .ok (tg k))
    (hts : ∀ k < height, height - 28 ≤ k → (hd k).timestamp < 2 ^ 32) :
    get_target fdiv store chunk height = .ok ((digishield_spec hd tg height : ℤ) : ℚ) := by
  have hlh : ∀ k < height, height - 28 ≤ k → loopHeader store chunk k = .ok (hd k) :=
    fun k h1 h2 => loopHeader_store store chunk k (hd k) (hav k h1 h2)
  have hmax1 : max 1 height = height := Nat.max_eq_right (by omega)
  simp only [get_target, POW_AVERAGING_WINDOW, EH_EPOCH_1_END, LWMA_FORK_BLOCK]
  rw [if_neg (by omega), if_neg (by omega), if_neg (by omega)]
  have hrm : pyRange (height - POW_MEDIAN_BLOCK_SPAN) (max 1 height) =
      List.range' (height - 11) 11 := by
    simp only [pyRange, POW_MEDIAN_BLOCK_SPAN, hmax1]
    congr 1
    omega
  have hrm0 : pyRange (height - POW_AVERAGING_WINDOW - POW_MEDIAN_BLOCK_SPAN)
      (max 1 (height - POW_AVERAGING_WINDOW)) =
      List.range' (height - 17 - 11) 11 := by
    simp only [pyRange, POW_MEDIAN_BLOCK_SPAN, POW_AVERAGING_WINDOW]
    have : max 1 (height - 17) = height - 17 := Nat.max_eq_right (by omega)
    rw [this]
    congr 1
    omega
  have hm1 : get_median_time store chunk height = .ok (median_time_spec hd height) := by
    rw [get_median_time_ok store chunk hd height
      (fun k hk => by
        rw [hrm, List.mem_range'_1] at hk
        exact hlh k (by omega) (by omega))]
    rw [median_time_spec, hrm]
  have hm0 : get_median_time store chunk (height - POW_AVERAGING_WINDOW) =
      .ok (median_time_spec hd (height - 17)) := by
    rw [get_median_time_ok store chunk hd (height - POW_AVERAGING_WINDOW)
      (fun k hk => by
        rw [hrm0, List.mem_range'_1] at hk
        exact hlh k (by omega) (by omega))]
    rw [median_time_spec, hrm0]
  have hdig : digishield_target store chunk height = .ok (digishield_spec hd tg height) := by
    simp only [digishield_target]
    have hr_mean : pyRange (height - POW_AVERAGING_WINDOW) (max 1 height) =
        List.range' (height - 17) 17 := by
      simp only [pyRange, POW_AVERAGING_WINDOW, hmax1]
      congr 1
      omega
    rw [hr_mean]
    rw [mean_fold_ok store chunk hd tg _
      (fun k hk => by
        rw [List.mem_range'_1] at hk
        exact hlh k (by omega) (by omega))
      (fun k hk => by
        rw [List.mem_range'_1] at hk
        exact htg k (by omega) (by omega)) 0]
    simp only [except_bind_ok]
    rw [hm1]
    simp only [except_bind_ok]
    rw [hm0]
    simp only [except_bind_ok, except_pure_eq]
    refine congrArg Except.ok ?_
    rw [clamp_eq_max_min _ _ _ (by norm_num [MIN_ACTUAL_TIMESPAN, MAX_ACTUAL_TIMESPAN,
      AVERAGING_WINDOW_TIMESPAN, POW_AVERAGING_WINDOW, POW_TARGET_SPACING,
      POW_MAX_ADJUST_UP, POW_MAX_ADJUST_DOWN])]
    rw [if_gt_eq_min]
    norm_num [digishield_spec, MIN_ACTUAL_TIMESPAN, MAX_ACTUAL_TIMESPAN,
      AVERAGING_WINDOW_TIMESPAN, POW_AVERAGING_WINDOW, POW_TARGET_SPACING,
      POW_MAX_ADJUST_UP, POW_MAX_ADJUST_DOWN, POW_DAMPING_FACTOR]
  rw [hdig, except_map_ok]

/-- Concrete headers for the C4 witness: timestamps spaced 60 s, canonical
bits `0x1f07ffff`. -/
def c4_hd : ℕ → RHeader := fun k => ⟨1000 + 60 * k, 0x1f07ffff⟩

def c4_store : ℕ → Option RHeader :=
  fun k => if 2 ≤ k ∧ k ≤ 29 then some (c4_hd k) else none

def c4_tg : ℕ → ℕ := fun _ => 0x07ffff * 2 ^ 224

/-- Witness for C4 at height 30 with the window `[2, 29]` in the store. -/
theorem C4_digishield_correct_witness :
    get_target fdiv0 c4_store none 30 = .ok ((digishield_spec c4_hd c4_tg 30 : ℤ) : ℚ) :=
  C4_digishield_correct fdiv0 c4_store none c4_hd c4_tg 30 (by omega) (by omega)
    (by omega) (by decide) (by decide) (by decide)

/-! ## C8: lookup order and retarget determinism -/

/-- Lowest height `get_target` can read for target height `height`:
`height − 61` in the LWMA-3 regime (the `previousTimestamp` header plus
the window `[height−60, height−1]`), else `height − 28` (the Digishield
mean window plus both median spans). -/
def window_lo (height : ℕ) : ℕ :=
  if LWMA_FORK_BLOCK ≤ height then height - 61 else height - 28

/-- The list of heights `[window_lo height, height)`. -/
def neededWindow (height : ℕ) : List ℕ :=
  List.range' (window_lo height) (height - window_lo height)

theorem mem_neededWindow {k height : ℕ} :
    k ∈ neededWindow height ↔ window_lo height ≤ k ∧ k < height := by
  rw [neededWindow, List.mem_range'_1]
  have : window_lo height ≤ height := by
    rw [window_lo]; split <;> omega
  omega

theorem loopHeader_chunk (store : ℕ → Option RHeader) (c : ChunkCtx) (k : ℕ)
    (h : RHeader) (hs : store k = none) (hce : c.empty = false)
    (h1 : c.min_height ≤ k) (h2 : k ≤ c.max_height)
    (hc : c.headers k = some h) :
    loopHeader store (some c) k = .ok h := by
  simp [loopHeader, hs, hce, h1, h2, hc]

theorem lwma_prev_ts_none (store : ℕ → Option RHeader) (height : ℕ) (h : RHeader)
    (hs : store (height - ZAWY_LWMA3_AVERAGING_WINDOW - 1) = some h) :
    lwma_prev_ts store none height = .ok h.timestamp := by
  simp [lwma_prev_ts, hs]

theorem lwma_prev_ts_chunk (store : ℕ → Option RHeader) (c : ChunkCtx)
    (height : ℕ) (h : RHeader) (hce : c.empty = false)
    (h1 : c.min_height ≤ height - ZAWY_LWMA3_AVERAGING_WINDOW - 1)
    (h2 : height - ZAWY_LWMA3_AVERAGING_WINDOW - 1 ≤ c.max_height)
    (hc : c.headers (height - ZAWY_LWMA3_AVERAGING_WINDOW - 1) = some h) :
    lwma_prev_ts store (some c) height = .ok h.timestamp := by
  simp [lwma_prev_ts, hce, h1, h2, hc]

theorem get_median_time_congr (sA sB : ℕ → Option RHeader)
    (cA cB : Option ChunkCtx) (x : ℕ)
    (h : ∀ k ∈ pyRange (x - POW_MEDIAN_BLOCK_SPAN) (max 1 x),
      loopHeader sA cA k = loopHeader sB cB k) :
    get_median_time sA cA x = get_median_time sB cB x := by
  simp only [get_median_time]
  rw [foldlM_except_congr (median_step sA cA) (median_step sB cB) _
    (fun st a ha => by simp only [median_step]; rw [h a ha]) ([] : List ℕ)]

theorem digishield_target_congr (sA sB : ℕ → Option RHeader)
    (cA cB : Option ChunkCtx) (height : ℕ) (h17 : 17 < height)
    (hfork : height < LWMA_FORK_BLOCK)
    (h : ∀ k, height - 28 ≤ k → k < height → loopHeader sA cA k = loopHeader sB cB k) :
    digishield_target sA cA height = digishield_target sB cB height := by
  have hfk : height < 765000 := by simpa [LWMA_FORK_BLOCK] using hfork
  have hmax1 : max 1 height = height := Nat.max_eq_right (by omega)
  simp only [digishield_target]
  rw [foldlM_except_congr (mean_step sA cA) (mean_step sB cB) _
    (fun st a ha => by
      rw [mem_pyRange] at ha
      rw [hmax1] at ha
      simp only [POW_AVERAGING_WINDOW] at ha
      simp only [mean_step]
      rw [h a (by omega) (by omega)]) (0 : ℕ)]
  rw [get_median_time_congr sA sB cA cB height (fun k hk => by
    rw [mem_pyRange, hmax1] at hk
    simp only [POW_MEDIAN_BLOCK_SPAN] at hk
    exact h k (by omega) (by omega))]
  rw [get_median_time_congr sA sB cA cB (height - POW_AVERAGING_WINDOW) (fun k hk => by
    rw [mem_pyRange] at hk
    simp only [POW_MEDIAN_BLOCK_SPAN, POW_AVERAGING_WINDOW] at hk
    have hm : max 1 (height - 17) = height - 17 := Nat.max_eq_right (by omega)
    rw [hm] at hk
    exact h k (by omega) (by omega))]

theorem lwma_target_congr (fdiv : ℤ → ℤ → ℚ) (sA sB : ℕ → Option RHeader)
    (cA cB : Option ChunkCtx) (height : ℕ) (hfork : LWMA_FORK_BLOCK ≤ height)
    (hprev : lwma_prev_ts sA cA height = lwma_prev_ts sB cB height)
    (h : ∀ k, height - 61 ≤ k → k < height → loopHeader sA cA k = loopHeader sB cB k) :
    lwma_target fdiv sA cA height = lwma_target fdiv sB cB height := by
  have hfk : 765000 ≤ height := by simpa [LWMA_FORK_BLOCK] using hfork
  simp only [lwma_target]
  have hcond : ¬(height < ZAWY_LWMA3_AVERAGING_WINDOW) := by
    simp only [ZAWY_LWMA3_AVERAGING_WINDOW]; omega
  rw [if_neg hcond, if_neg hcond, hprev]
  cases hp : lwma_prev_ts sB cB height with
  | error e => rfl
  | ok pts =>
    simp only [except_bind_ok]
    rw [foldlM_except_congr (lwma_step sA cA height) (lwma_step sB cB height) _
      (fun st a ha => by
        rw [mem_pyRange] at ha
        simp only [ZAWY_LWMA3_AVERAGING_WINDOW] at ha
        simp only [lwma_step]
        rw [h a (by omega) (by omega)]) (⟨pts, 0, 0, 0, none⟩ : LwmaState)]

/-- C8 counterexample data: the store and the in-flight context disagree
on the whole window `[2, 29]` (different timestamps and different bits). -/
def c8_storeA : ℕ → Option RHeader :=
  fun k => if 2 ≤ k ∧ k ≤ 29 then some ⟨1000 + 60 * k, 0x1f07ffff⟩ else none

def c8_ctx : ChunkCtx :=
  ⟨false, 2, 29, fun k => if 2 ≤ k ∧ k ≤ 29 then some ⟨1000 + 61 * k, 0x1e07ffff⟩ else none⟩

/-- C8 counterexample: at height 30 every read falls in
`[min_height, max_height] = [2, 29]` of the in-flight context, yet
`get_target` returns the value computed from the store's headers — the
context is ignored whenever the store answers (adding the context does
not change the result), and serving the window from the context alone
gives a different value.  So a header in the context's range is *not*
taken in preference to the backing store. -/
theorem C8_context_preference_counterexample :
    get_target fdiv0 c8_storeA (some c8_ctx) 30 = get_target fdiv0 c8_storeA none 30 ∧
    get_target fdiv0 c8_storeA (some c8_ctx) 30 ≠
      get_target fdiv0 store_empty (some c8_ctx) 30 := by
  constructor
  · decide
  · decide

/-- C8, amended: the backing store is consulted first and the in-flight
context serves heights the store lacks; consequently retarget is
deterministic in the serving side: a window served entirely by the store
(run A) and the identical window served entirely by the context (run B)
yield the same `get_target` value at every height. -/
theorem C8_store_first_determinism (fdiv : ℤ → ℤ → ℚ) (height : ℕ)
    (hd : ℕ → RHeader) (storeA storeB : ℕ → Option RHeader) (c : ChunkCtx)
    (hA : ∀ k ∈ neededWindow height, storeA k = some (hd k))
    (hB : ∀ k ∈ neededWindow height, storeB k = none)
    (hce : c.empty = false)
    (hcr : ∀ k ∈ neededWindow height, c.min_height ≤ k ∧ k ≤ c.max_height)
    (hch : ∀ k ∈ neededWindow height, c.headers k = some (hd k)) :
    (∀ (store : ℕ → Option RHeader) (chunk : Option ChunkCtx) (k : ℕ) (h : RHeader),
      store k = some h → loopHeader store chunk k = .ok h) ∧
    get_target fdiv storeA none height = get_target fdiv storeB (some c) height := by
  refine ⟨fun store chunk k h => loopHeader_store store chunk k h, ?_⟩
  have hload : ∀ k, window_lo height ≤ k → k < height →
      loopHeader storeA none k = loopHeader storeB (some c) k := by
    intro k h1 h2
    have hk : k ∈ neededWindow height := mem_neededWindow.mpr ⟨h1, h2⟩
    rw [loopHeader_store _ _ _ _ (hA k hk),
      loopHeader_chunk storeB c k (hd k) (hB k hk) hce (hcr k hk).1 (hcr k hk).2
        (hch k hk)]
  simp only [get_target]
  split_ifs with h1 h2 h3
  · rfl
  · rfl
  · -- LWMA-3 branch
    have hlo : window_lo height = height - 61 := by
      rw [window_lo, if_pos h3]
    have hidx : height - ZAWY_LWMA3_AVERAGING_WINDOW - 1 = height - 61 := by
      simp only [ZAWY_LWMA3_AVERAGING_WINDOW]; omega
    have hfk : 765000 ≤ height := by
      simpa [LWMA_FORK_BLOCK] using h3
    have h61 : height - 61 ∈ neededWindow height := by
      rw [mem_neededWindow, hlo]
      omega
    have hprev : lwma_prev_ts storeA none height = lwma_prev_ts storeB (some c) height := by
      rw [lwma_prev_ts_none storeA height (hd (height - 61)) (by rw [hidx]; exact hA _ h61),
        lwma_prev_ts_chunk storeB c height (hd (height - 61)) hce
          (by rw [hidx]; exact (hcr _ h61).1) (by rw [hidx]; exact (hcr _ h61).2)
          (by rw [hidx]; exact hch _ h61)]
    exact lwma_target_congr fdiv storeA storeB none (some c) height h3 hprev
      (fun k hk1 hk2 => hload k (by omega) hk2)
  · -- Digishield branch
    exact congrArg (Except.map fun z : ℤ => (z : ℚ))
      (digishield_target_congr storeA storeB none (some c) height
        (by simpa [POW_AVERAGING_WINDOW] using h1)
        (by simpa [LWMA_FORK_BLOCK] using h3)
        (fun k hk1 hk2 => hload k (by rw [window_lo, if_neg h3]; exact hk1) hk2))

/-- Headers for the C8 witness (served identically by store and context). -/
def c8w_hd : ℕ → RHeader := fun k => ⟨1000 + 60 * k, 0x1f07ffff⟩

def c8w_storeA : ℕ → Option RHeader :=
  fun k => if 2 ≤ k ∧ k ≤ 29 then some (c8w_hd k) else none

def c8w_ctx : ChunkCtx :=
  ⟨false, 2, 29, fun k => if 2 ≤ k ∧ k ≤ 29 then some (c8w_hd k) else none⟩

/-- Witness for C8 (amended) at height 30. -/
theorem C8_store_first_determinism_witness :
    (∀ (store : ℕ → Option RHeader) (chunk : Option ChunkCtx) (k : ℕ) (h : RHeader),
      store k = some h → loopHeader store chunk k = .ok h) ∧
    get_target fdiv0 c8w_storeA none 30 = get_target fdiv0 store_empty (some c8w_ctx) 30 :=
  C8_store_first_determinism fdiv0 30 c8w_hd c8w_storeA store_empty c8w_ctx
    (by decide) (by decide) rfl (by decide) (by decide)

/-! ## C5: the LWMA-3 clamp is computed in floating point

The window loop of the LWMA-3 branch is exact integer arithmetic, but
`(previousDiff * 150) / 100` and `(previousDiff * 67) / 100` are Python
float (true) divisions: their results are IEEE doubles, i.e. dyadic
rationals `m · 2^e`.  When `previousDiff` is a bits-decoded target whose
odd part is not divisible by 5, the exact lower clamp
`previousDiff·67/100` has the factor 25 in its reduced denominator, so
*no* double equals it — whenever the lower clamp binds, the returned
value (one of `t·sum`, the two doubles, or `MAX_TARGET`) cannot be the
exact clamped value the spec demands. -/

/-- Every finite IEEE-754 double is `m · 2^e` for integers `m`, `e`
(this superset suffices: only non-membership is used). -/
def IsDouble (q : ℚ) : Prop := ∃ m e : ℤ, q = (m : ℚ) * 2 ^ e

theorem not_double_div100 (a : ℤ) (h5 : ¬(5 : ℤ) ∣ a) (m e : ℤ) :
    (a : ℚ) / 100 ≠ (m : ℚ) * 2 ^ e := by
  intro heq
  have hp : Prime (5 : ℤ) := by norm_num
  rcases le_or_lt 0 e with he | he
  · lift e to ℕ using he
    have : (a : ℚ) = ((100 * m * 2 ^ e : ℤ) : ℚ) := by
      push_cast
      rw [zpow_natCast] at heq
      field_simp at heq
      push_cast at heq
      linarith
    have ha : a = 100 * m * 2 ^ e := by exact_mod_cast this
    exact h5 ⟨20 * m * 2 ^ e, by linarith⟩
  · obtain ⟨n, hn⟩ : ∃ n : ℕ, e = -(n : ℤ) := ⟨(-e).toNat, by omega⟩
    subst hn
    rw [zpow_neg, zpow_natCast] at heq
    have h2 : ((2 : ℚ) ^ n) ≠ 0 := by positivity
    have : ((a * 2 ^ n : ℤ) : ℚ) = ((100 * m : ℤ) : ℚ) := by
      push_cast
      field_simp at heq
      linarith
    have ha : a * 2 ^ n = 100 * m := by exact_mod_cast this
    have hdvd : (5 : ℤ) ∣ a * 2 ^ n := ⟨20 * m, by linarith⟩
    rcases hp.dvd_mul.mp hdvd with h | h
    · exact h5 h
    · have := hp.dvd_of_dvd_pow h
      norm_num at this

/-- The C5 failing window: 61 headers at heights `[764939, 764999]`,
timestamps one second apart (fast blocks), all bits `0x1c7fffff`. -/
def c5_store : ℕ → Option RHeader :=
  fun h => if 764939 ≤ h ∧ h ≤ 764999 then some ⟨1000 + (h - 764939), 0x1c7fffff⟩ else none

/-- `bits_to_target 0x1c7fffff = 0x7fffff · 2^200`, the `previousDiff` of
the C5 window. -/
def c5_prev_diff : ℕ := 0x7fffff * 2 ^ 200

/-- The weighted-target sum the loop accumulates on the C5 window
(`k·N = 109800 · 60 = 6588000`). -/
def c5_sum : ℕ := 60 * (c5_prev_diff / 6588000)

/-- The LWMA-3 result as the spec states it (§4.C): the exact integer
`t·sum_target` clamped to `[prev_diff·67/100, prev_diff·150/100]` and
then to at most `MAX_TARGET`. -/
def lwma_spec (t sumTarget prev_diff : ℕ) : ℚ :=
  min ((MAX_TARGET : ℕ) : ℚ)
    (min ((prev_diff : ℚ) * 150 / 100)
      (max ((prev_diff : ℚ) * 67 / 100) ((t * sumTarget : ℕ) : ℚ)))

/-- C5: on the C5 window the exact clamped value the spec demands is
`prev_diff·67/100`, which is not a dyadic rational; whatever doubles the
float divisions produce, `get_target` at height 765000 returns a value
different from it. -/
theorem C5_lwma_float_clamp_bug (fdiv : ℤ → ℤ → ℚ)
    (hdl : ∀ a b, IsDouble (fdiv a b)) (v : ℚ)
    (hv : get_target fdiv c5_store none 765000 = .ok v) :
    v ≠ lwma_spec 1830 c5_sum c5_prev_diff ∧
    lwma_spec 1830 c5_sum c5_prev_diff = (c5_prev_diff : ℚ) * 67 / 100 := by
  have hprev : lwma_prev_ts c5_store none 765000 = .ok 1000 := by decide
  have hfold : (pyRange (765000 - ZAWY_LWMA3_AVERAGING_WINDOW) 765000).foldlM
      (lwma_step c5_store none 765000) ⟨1000, 0, 0, 0, none⟩ =
      .ok ⟨1060, 1830, 60, c5_sum, some c5_prev_diff⟩ := by
    set_option maxRecDepth 10000 in decide
  simp only [get_target, POW_AVERAGING_WINDOW, EH_EPOCH_1_END, LWMA_FORK_BLOCK] at hv
  rw [if_neg (by omega), if_neg (by omega), if_pos (by omega)] at hv
  simp only [lwma_target] at hv
  rw [if_neg (by simp only [ZAWY_LWMA3_AVERAGING_WINDOW]; omega), hprev] at hv
  simp only [except_bind_ok] at hv
  rw [hfold] at hv
  simp only [except_bind_ok] at hv
  have hveq : v = lwma_clamp fdiv (1830 * c5_sum) c5_prev_diff := by
    injection hv with h
    exact h.symm
  -- the exact lower clamp value and its 5-adic structure
  have hE : (c5_prev_diff : ℚ) * 67 / 100 = ((67 * (0x7fffff * 2 ^ 200) : ℤ) : ℚ) / 100 := by
    simp only [c5_prev_diff]
    push_cast
    ring
  have h5 : ¬(5 : ℤ) ∣ (67 * (0x7fffff * 2 ^ 200) : ℤ) := by
    rw [Int.dvd_iff_emod_eq_zero]
    set_option maxRecDepth 4000 in decide
  have hndbl : ∀ q : ℚ, IsDouble q → q ≠ (c5_prev_diff : ℚ) * 67 / 100 := by
    rintro q ⟨m, e, rfl⟩ heq
    rw [hE] at heq
    exact not_double_div100 _ h5 m e heq.symm
  have hint_ne : ∀ n : ℕ, (n : ℚ) ≠ (c5_prev_diff : ℚ) * 67 / 100 := by
    intro n heq
    rw [hE, eq_div_iff (by norm_num : (100 : ℚ) ≠ 0)] at heq
    have hcast : (n : ℚ) * 100 = ((n * 100 : ℤ) : ℚ) := by push_cast; ring
    rw [hcast] at heq
    have hzz : (n : ℤ) * 100 = 67 * (0x7fffff * 2 ^ 200) := by exact_mod_cast heq
    exact h5 ⟨(n : ℤ) * 20, by linarith⟩
  have hA : ((1830 * c5_sum : ℕ) : ℚ) < (c5_prev_diff : ℚ) * 67 / 100 := by
    rw [lt_div_iff₀ (by norm_num : (0 : ℚ) < 100)]
    exact_mod_cast (by decide : 1830 * c5_sum * 100 < c5_prev_diff * 67)
  have hB : (c5_prev_diff : ℚ) * 67 / 100 ≤ (c5_prev_diff : ℚ) * 150 / 100 := by
    rw [div_le_div_iff_of_pos_right (by norm_num : (0 : ℚ) < 100)]
    exact mul_le_mul_of_nonneg_left (by norm_num) (by positivity)
  have hC : (c5_prev_diff : ℚ) * 67 / 100 ≤ ((MAX_TARGET : ℕ) : ℚ) := by
    rw [div_le_iff₀ (by norm_num : (0 : ℚ) < 100)]
    exact_mod_cast (by decide : c5_prev_diff * 67 ≤ MAX_TARGET * 100)
  have hspec : lwma_spec 1830 c5_sum c5_prev_diff = (c5_prev_diff : ℚ) * 67 / 100 := by
    simp only [lwma_spec]
    rw [max_eq_left (le_of_lt hA), min_eq_right hB, min_eq_right hC]
  refine ⟨?_, hspec⟩
  rw [hveq, hspec]
  simp only [lwma_clamp]
  split_ifs with h1 h2 h3 h4 h5a h6
  all_goals
    first
      | exact hndbl _ (hdl _ _)
      | exact hint_ne _

/-- Witness for C5 with the constantly-zero float division (0 is a
double); `get_target` then returns `.ok 0`. -/
theorem C5_lwma_float_clamp_bug_witness :
    (0 : ℚ) ≠ lwma_spec 1830 c5_sum c5_prev_diff ∧
    lwma_spec 1830 c5_sum c5_prev_diff = (c5_prev_diff : ℚ) * 67 / 100 :=
  C5_lwma_float_clamp_bug fdiv0 (fun a b => ⟨0, 0, by norm_num [fdiv0]⟩) 0
    (by set_option maxRecDepth 10000 in decide)

/-! ## C7: `Blockchain.read_header` -/

/-- `int('0x' + bh2u(s[::-1]), 16)`: the reversed byte slice read as a
big-endian hex number is the little-endian value of the slice. -/
def le_bytes_to_int (bs : List ℕ) : ℕ := bs.foldr (fun b acc => b + 256 * acc) 0

/-- A deserialized header record.  `hash_encode` fields (reversed-hex
display strings) are modelled as the reversed byte lists. -/
structure DHeader where
  version : ℕ
  prev_block_hash : List ℕ
  merkle_root : List ℕ
  reserved_hash : List ℕ
  timestamp : ℕ
  bits : ℕ
  nonce : List ℕ
  sol_size : List ℕ
  solution : List ℕ
  block_height : ℤ
deriving DecidableEq

/-- `deserialize_header(s, height)`: `if not s: raise`, length check
against `get_header_size(height)`, then positional field decode with the
derived `block_height` attached. -/
def deserialize_header (s : List ℕ) (height : ℤ) : Except String DHeader :=
  if s = [] then .error "Invalid header"
  else if s.length ≠ get_header_size height then .error "Invalid header length"
  else .ok ⟨le_bytes_to_int (s.take 4),
    ((s.drop 4).take 32).reverse,
    ((s.drop 36).take 32).reverse,
    ((s.drop 68).take 32).reverse,
    le_bytes_to_int ((s.drop 100).take 4),
    le_bytes_to_int ((s.drop 104).take 4),
    ((s.drop 108).take 32).reverse,
    ((s.drop 140).take 3).reverse,
    (s.drop 143).reverse,
    height⟩

/-- The state of one chain as `read_header` sees it: `forkpoint`, the
cached `_size`, and the bytes of its header file (assumed present on
disk; `height() = forkpoint + size - 1`). -/
structure ChainM where
  forkpoint : ℤ
  size : ℕ
  file : List ℕ

/-- `Blockchain.read_header`.  For `0 ≤ height < forkpoint` the source
executes `return self.parent().read_header(height)` — but `parent` is an
attribute holding a `Blockchain` instance (or `None`), assigned in
`__init__` and in `_swap_with_parent`, and neither class defines
`__call__`: the call `self.parent()` raises
`TypeError: object is not callable` instead of delegating.  Otherwise:
heights below 0 and above the tip give `None`, in-range heights read
`get_header_size(height)` bytes at `get_offset(forkpoint, height)`,
a short read raises, an all-zero block is the `None` sentinel, and
anything else is deserialized. -/
def read_header (c : ChainM) (height : ℤ) : Except String (Option DHeader) :=
  if height < 0 then .ok none
  else if height < c.forkpoint then
    .error "TypeError: object is not callable"
  else if height > c.forkpoint + c.size - 1 then .ok none
  else
    let offset := get_offset c.forkpoint height
    let header_size := get_header_size height
    let h := (c.file.drop offset.toNat).take header_size
    if h.length < header_size then .error "Expected to read a full header"
    else if h = List.replicate header_size 0 then .ok none
    else deserialize_header h height

/-- A fork chain at forkpoint 800001 holding one header. -/
def c7_chain : ChainM := ⟨800001, 1, List.replicate 1487 1⟩

/-- C7: querying a height below the forkpoint does not delegate to the
parent — it raises, because line 545 calls the `parent` attribute
(`self.parent()`). -/
theorem C7_read_header_parent_call_bug :
    (0 : ℤ) ≤ 800000 ∧ (800000 : ℤ) < c7_chain.forkpoint ∧
    read_header c7_chain 800000 = .error "TypeError: object is not callable" := by
  refine ⟨by norm_num, by norm_num [c7_chain], by decide⟩

/-! ## C10: `check_hash` and `check_header` -/

/-- A raw header dict as `check_header` receives it: any field may be
missing (`dict.get` returns `None`). -/
structure HeaderDict where
  version : Option ℕ
  prev_block_hash : Option (List ℕ)
  merkle_root : Option (List ℕ)
  reserved_hash : Option (List ℕ)
  timestamp : Option ℕ
  bits : Option ℕ
  nonce : Option (List ℕ)
  sol_size : Option (List ℕ)
  solution : Option (List ℕ)
  block_height : Option ℤ
deriving DecidableEq

/-- The payload type fed to `sha256d`: `serialize_header` concatenates
the hex renderings of the nine fields; the rendering is injective, so
the tuple of fields stands for the serialized string (only definedness
matters for C10; the hex codec is external, spec §1). -/
def SerFields : Type :=
  ℕ × List ℕ × List ℕ × List ℕ × ℕ × ℕ × List ℕ × List ℕ × List ℕ

/-- `serialize_header(res)`: `int_to_hex(None, ...)`/`rev_hex(None)`
raise `TypeError` when a field is missing. -/
def serialize_header_fields (d : HeaderDict) : Except Unit SerFields :=
  match d.version, d.prev_block_hash, d.merkle_root, d.reserved_hash,
      d.timestamp, d.bits, d.nonce, d.sol_size, d.solution with
  | some v, some p, some mr, some rh, some ts, some b, some n, some ss, some sol =>
    .ok (v, p, mr, rh, ts, b, n, ss, sol)
  | _, _, _, _, _, _, _, _, _ => .error ()

/-- `hash_header(header)`: substitutes `'00'*32` for a missing
`prev_block_hash`, then `hash_encode(sha256d(bfh(serialize_header(h))))`
with `sha256d` abstracted as `sha` (a 32-byte digest). -/
def hash_header (sha : SerFields → List ℕ) (d : HeaderDict) : Except Unit (List ℕ) :=
  (serialize_header_fields
    ⟨d.version, some (d.prev_block_hash.getD (List.replicate 32 0)), d.merkle_root,
      d.reserved_hash, d.timestamp, d.bits, d.nonce, d.sol_size, d.solution,
      d.block_height⟩).map sha

/-- `self.get_hash(height)` as `check_hash` calls it: `g` abstracts the
chain lookup (hash value or any raised exception); a `None` height makes
the `height <= max_checkpoint()` comparison inside raise `TypeError`. -/
def get_hash_at : (ℤ → Except Unit (List ℕ)) → Option ℤ → Except Unit (List ℕ)
  | _, none => .error ()
  | g, some h => g h

/-- `Blockchain.check_hash`: the
`assert isinstance(header_hash, str) and len(header_hash) == 64` runs
before the `try` (a 32-byte digest renders as 64 hex chars); inside the
`try`, `header_hash == self.get_hash(height)` — any exception from
`get_hash` is caught and yields `False`. -/
def check_hash (g : ℤ → Except Unit (List ℕ)) (height : Option ℤ)
    (header_hash : List ℕ) : Except Unit Bool :=
  if header_hash.length ≠ 32 then .error ()
  else .ok (match get_hash_at g height with
    | .ok x => header_hash == x
    | .error _ => false)

/-- `Blockchain.check_header`: `header_hash = hash_header(header)` runs
with no handler, then `check_hash(header.get('block_height'), header_hash)`. -/
def check_header (sha : SerFields → List ℕ) (g : ℤ → Except Unit (List ℕ))
    (d : HeaderDict) : Except Unit Bool := do
  let header_hash ← hash_header sha d
  check_hash g d.block_height header_hash

def sha0 : SerFields → List ℕ := fun _ => List.replicate 32 0

def g0 : ℤ → Except Unit (List ℕ) := fun _ => .error ()

/-- The empty header dict (every `.get` returns `None`). -/
def c10_empty : HeaderDict := ⟨none, none, none, none, none, none, none, none, none, none⟩

/-- C10 counterexample: `check_header` on a dict with missing fields does
not return a boolean — `hash_header` raises outside any handler. -/
theorem C10_check_header_counterexample :
    check_header sha0 g0 c10_empty = .error () := rfl

/-- C10, amended: `check_hash` on a 64-hex-char hash returns a boolean
and converts any failure inside `get_hash` into `false`; `check_header`
returns a boolean whenever `hash_header` succeeds (all required fields
present) — but not in general. -/
theorem C10_check_hash_total (sha : SerFields → List ℕ)
    (g : ℤ → Except Unit (List ℕ)) (d : HeaderDict) (oh : Option ℤ)
    (s hh : List ℕ) :
    (hash_header sha d = .ok hh → hh.length = 32 →
      ∃ b : Bool, check_header sha g d = .ok b) ∧
    (s.length = 32 → ∃ b : Bool, check_hash g oh s = .ok b) ∧
    (s.length = 32 → (∃ e, get_hash_at g oh = .error e) →
      check_hash g oh s = .ok false) := by
  refine ⟨fun h1 h2 => ?_, fun h1 => ?_, fun h1 h2 => ?_⟩
  · rw [check_header, h1]
    simp only [except_bind_ok, check_hash, if_neg (by omega : ¬hh.length ≠ 32)]
    exact ⟨_, rfl⟩
  · rw [check_hash, if_neg (by omega : ¬s.length ≠ 32)]
    exact ⟨_, rfl⟩
  · obtain ⟨e, he⟩ := h2
    rw [check_hash, if_neg (by omega : ¬s.length ≠ 32), he]

/-- A header dict with all fields present. -/
def c10_full : HeaderDict :=
  ⟨some 1, some (List.replicate 32 0), some (List.replicate 32 0),
    some (List.replicate 32 0), some 1000, some 0x1f07ffff,
    some (List.replicate 32 0), some (List.replicate 3 0), some [], some 5⟩

/-- Witness for C10 (amended). -/
theorem C10_check_hash_total_witness :
    (∃ b : Bool, check_header sha0 g0 c10_full = .ok b) ∧
    (∃ b : Bool, check_hash g0 (some 5) (List.replicate 32 1) = .ok b) ∧
    check_hash g0 (some 5) (List.replicate 32 1) = .ok false :=
  ⟨(C10_check_hash_total sha0 g0 c10_full (some 5) (List.replicate 32 1)
      (List.replicate 32 0)).1 rfl (by decide),
   (C10_check_hash_total sha0 g0 c10_full (some 5) (List.replicate 32 1)
      (List.replicate 32 0)).2.1 (by decide),
   (C10_check_hash_total sha0 g0 c10_full (some 5) (List.replicate 32 1)
      (List.replicate 32 0)).2.2 (by decide) ⟨(), by decide⟩⟩

end Snowgem
